import Mathlib

/-!
A shallow embedding of the Email_Scraper repository and proofs about it.

The embedding follows `src/scraper.py` (the primary implementation; the
variant in `src/.github/workflows/scraper.py` is consulted where the claims
cite it).  External collaborators of the program (the HTML parser, the HTTP
transport, the headless browser, and the email-syntax validator library)
are modelled as follows:

* a fetched document is a `Page`: the parser's view of the HTML
  (`soup.get_text(separator=' ')`, the hrefs of `a[href^="mailto:" i]`
  anchors, the hrefs of all `a[href]` anchors, and the hrefs of anchors
  inside the first `footer`/`aside`/`nav` sections);
* the network is an `Oracle`: a deterministic assignment of responses to
  URLs, covering every failure mode (exception, non-200 status, body
  decode failure, render failure);
* Python `set` iteration order is determinized as first-occurrence order
  (`pySet`); Python `dict` is an insertion-ordered association list with
  in-place update, exactly the guarantees Python gives;
* Python string operations (`replace`, `strip`, `lower`, `split`,
  percent-decoding) are implemented below restricted to the ASCII
  behaviour the program exercises.

The regular expression `EMAIL_PATTERN` is embedded as a small backtracking
matcher (`reMatch`) with Python semantics (leftmost scan, alternation in
written order, greedy `+`).  `EMAIL_PATTERN` is compiled with `re.VERBOSE`,
which discards the unescaped space characters inside the pattern, so the
alternatives written ` at ` / ` dot ` compile to the bare literals
`at` / `dot`; the embedded pattern below is the pattern as compiled.
-/

namespace EmailScraper

/-! ## Python string and container primitives -/

/-- First-occurrence-order deduplication with an accumulator of elements
already seen. -/
def pySetAux (seen : List String) : List String → List String
  | [] => []
  | x :: xs => if x ∈ seen then pySetAux seen xs else x :: pySetAux (x :: seen) xs

/-- Python `set(...)` over strings, determinized as first-occurrence-order
deduplication.  (CPython iterates sets in a hash-dependent order; every
use in the program treats the set as an unordered collection, so any
fixed determinization is a faithful model of one run.) -/
def pySet (l : List String) : List String := pySetAux [] l

/-- Python `sub in s` substring test, on character lists. -/
def containsSub (sub : List Char) : List Char → Bool
  | [] => sub.isEmpty
  | c :: t => sub.isPrefixOf (c :: t) || containsSub sub t

/-- Python `str.replace(pat, rep)` on character lists: every
non-overlapping occurrence, scanning left to right.  Structural recursion
on a fuel bound so that the definition reduces; every step consumes at
least one character when the pattern is non-empty (the program never
calls `replace` with an empty pattern), so fuel `s.length + 1` is never
exhausted and the zero-fuel arm is unreachable. -/
def replaceL (pat rep : List Char) : Nat → List Char → List Char
  | 0, _ => []
  | _, [] => []
  | fuel + 1, c :: rest =>
    if pat ≠ [] ∧ pat.isPrefixOf (c :: rest) then
      rep ++ replaceL pat rep fuel ((c :: rest).drop pat.length)
    else
      c :: replaceL pat rep fuel rest

/-- Python `str.replace` on strings. -/
def pyReplace (s pat rep : String) : String :=
  String.mk (replaceL pat.data rep.data (s.data.length + 1) s.data)

/-- Split a character list at every character satisfying `p`
(keeping empty pieces), as `String.split` does. -/
def splitOnP (p : Char → Bool) : List Char → List (List Char)
  | [] => [[]]
  | c :: rest =>
    let r := splitOnP p rest
    if p c then [] :: r
    else
      match r with
      | h :: t => (c :: h) :: t
      | [] => [[c]]

/-- Python `str.strip()`: remove leading and trailing whitespace
(ASCII whitespace, which covers the program's inputs). -/
def pyStrip (s : String) : String :=
  String.mk (((s.data.dropWhile Char.isWhitespace).reverse.dropWhile
    Char.isWhitespace).reverse)

/-- Python `str.lower()` (ASCII lowercasing, which covers the program's
inputs). -/
def pyLower (s : String) : String := String.mk (s.data.map Char.toLower)

/-- Python `s.startswith(pre)`. -/
def strStarts (s pre : String) : Bool := pre.data.isPrefixOf s.data

/-- Python `s.split()` (split on whitespace runs, dropping empties). -/
def pySplitWS (s : String) : List (List Char) :=
  (splitOnP Char.isWhitespace s.data).filter (fun t => t ≠ [])

/-- Python `s.split(sep, 1)[-1]`: everything after the first occurrence of
`sep`, or the whole string when `sep` does not occur. -/
def splitOnceTail (sep : Char) (s : List Char) : List Char :=
  if s.any (fun c => c = sep) then afterFirst s else s
where
  afterFirst : List Char → List Char
    | [] => []
    | c :: rest => if c = sep then rest else afterFirst rest

/-- One `%XX` percent-decoding step helper: hexadecimal digit value. -/
def hexVal (c : Char) : Option Nat :=
  if '0' ≤ c ∧ c ≤ '9' then some (c.toNat - '0'.toNat)
  else if 'a' ≤ c ∧ c ≤ 'f' then some (c.toNat - 'a'.toNat + 10)
  else if 'A' ≤ c ∧ c ≤ 'F' then some (c.toNat - 'A'.toNat + 10)
  else none

/-- `urllib.parse.unquote`, restricted to single-byte (ASCII) escapes,
which is all the program's inputs exercise. -/
def unquoteL : List Char → List Char
  | '%' :: a :: b :: rest =>
    match hexVal a, hexVal b with
    | some x, some y => Char.ofNat (16 * x + y) :: unquoteL rest
    | _, _ => '%' :: unquoteL (a :: b :: rest)
  | c :: rest => c :: unquoteL rest
  | [] => []

/-- `urllib.parse.unquote` on strings. -/
def pyUnquote (s : String) : String := String.mk (unquoteL s.data)

/-- Python `', '.join(l)`. -/
def sepJoin : List (List Char) → List Char
  | [] => []
  | [e] => e
  | e :: rest => e ++ [',', ' '] ++ sepJoin rest

/-- Python `', '.join(l)` on strings. -/
def joinCS (l : List String) : String := String.mk (sepJoin (l.map String.data))

/-! ## The compiled `EMAIL_PATTERN` regular expression

A small regex abstract syntax with a backtracking matcher having Python
semantics: alternation tries branches in written order, `+` is greedy,
literals compare case-insensitively (the pattern is compiled with
`re.IGNORECASE`; lowercasing is ASCII, which covers the program's
inputs). -/

inductive RE where
  | cls (p : Char → Bool)
  | lit (s : List Char)
  | cat (a b : RE)
  | alt (a b : RE)
  | plus (r : RE)

/-- Case-insensitive character comparison (ASCII lowercasing). -/
def charIEq (a b : Char) : Bool := a.toLower == b.toLower

/-- All ways a pattern can match a prefix of `s`, returned as the list of
remainders in backtracking priority order (head = the match the Python
engine commits to).  `fuel` bounds the `plus` unfolding; every call site
is generous (`2 * s.length + 100`), far above the recursion depth any
match of the email pattern can reach, so the zero-fuel arm is never
taken; structural recursion on the fuel keeps the definition
kernel-reducible. -/
def reMatch : Nat → RE → List Char → List (List Char)
  | 0, _, _ => []
  | _ + 1, .cls p, s =>
    match s with
    | [] => []
    | c :: rest => if p c then [rest] else []
  | _ + 1, .lit [], s => [s]
  | fuel + 1, .lit (c :: cs), s =>
    match s with
    | [] => []
    | d :: rest => if charIEq c d then reMatch fuel (.lit cs) rest else []
  | fuel + 1, .cat a b, s => (reMatch fuel a s).flatMap (fun s2 => reMatch fuel b s2)
  | fuel + 1, .alt a b, s => reMatch fuel a s ++ reMatch fuel b s
  | fuel + 1, .plus r, s =>
    (reMatch fuel r s).flatMap (fun s2 => reMatch fuel (.plus r) s2 ++ [s2])

/-- `re.findall` scanning: leftmost non-overlapping matches.  The fuel is
the scan position budget; the pattern at hand never matches the empty
string, but a zero-width match is skipped defensively the way the scan
advances past an unmatched position. -/
def scanFindall : Nat → RE → List Char → List (List Char)
  | 0, _, _ => []
  | _, _, [] => []
  | fuel + 1, r, s@(_ :: rest) =>
    match (reMatch (2 * s.length + 100) r s).head? with
    | some rem =>
      let k := s.length - rem.length
      if k = 0 then scanFindall fuel r rest
      else s.take k :: scanFindall fuel r rem
    | none => scanFindall fuel r rest

/-- Word characters: ASCII model of Python's `\w`. -/
def wordChar (c : Char) : Bool := c.isAlphanum || c == '_'

/-- `[\w.%+-]` -/
def cls1 : Char → Bool := fun c => wordChar c || c == '.' || c == '%' || c == '+' || c == '-'

/-- `[\w-]` -/
def cls2 : Char → Bool := fun c => wordChar c || c == '-'

/-- `[\w.-]` -/
def cls3 : Char → Bool := fun c => wordChar c || c == '.' || c == '-'

/-- `(?:@|\[at\]|\(at\)| at | à | à|＠)` as compiled under `re.VERBOSE`:
the unescaped spaces are ignored, so the spaced variants are the bare
literals. -/
def atTok : RE :=
  .alt (.lit ['@']) (.alt (.lit "[at]".data) (.alt (.lit "(at)".data)
    (.alt (.lit "at".data) (.alt (.lit ['à']) (.alt (.lit ['à']) (.lit ['＠']))))))

/-- `(?:\.|\[dot\]|\(dot\)| dot |。)` as compiled under `re.VERBOSE`. -/
def dotTok : RE :=
  .alt (.lit ['.']) (.alt (.lit "[dot]".data) (.alt (.lit "(dot)".data)
    (.alt (.lit "dot".data) (.lit ['。']))))

/-- First alternative of `EMAIL_PATTERN`:
`(?:[\w.%+-]+(?:at-token)[\w-]+(?:dot-token)[\w-]+)`. -/
def emailAlt1 : RE :=
  .cat (.plus (.cls cls1)) (.cat atTok (.cat (.plus (.cls cls2)) (.cat dotTok (.plus (.cls cls2)))))

/-- Second alternative of `EMAIL_PATTERN`:
`[\w.%+-]+@[\w.-]+\.[a-zA-Z]{2,}`. -/
def emailAlt2 : RE :=
  .cat (.plus (.cls cls1)) (.cat (.lit ['@']) (.cat (.plus (.cls cls3))
    (.cat (.lit ['.']) (.cat (.cls Char.isAlpha) (.plus (.cls Char.isAlpha))))))

/-- The compiled `EMAIL_PATTERN`. -/
def emailPattern : RE := .alt emailAlt1 emailAlt2

/-- `EMAIL_PATTERN.findall(text)`: the list of matched substrings (the
pattern has no capture groups, so `findall` returns whole matches). -/
def findallEmails (text : String) : List String :=
  (scanFindall (text.data.length + 1) emailPattern text.data).map String.mk

/-! ## Data model -/

/-- Configuration constant `MAX_RETRIES` of `src/scraper.py`. -/
def MAX_RETRIES : Nat := 2

/-- The parser's (BeautifulSoup's) view of one fetched document: the HTML
parsing library is an external collaborator, so a fetched body is
modelled directly by the four projections the program queries. -/
structure Page where
  /-- `soup.get_text(separator=' ')` -/
  text : String
  /-- the `href` values of `soup.select('a[href^="mailto:" i]')` in document order -/
  mailtoHrefs : List String
  /-- the `href` values of `soup.select('a[href]')` in document order -/
  allHrefs : List String
  /-- the `href` values of anchors inside the first `footer`, `aside` and
  `nav` sections, in the order the two nested loops of
  `discover_relevant_pages` visit them -/
  structuralHrefs : List String
deriving DecidableEq, Repr

/-- Outcome of one `session.get(url)`: an exception (timeout, connection
error, ...), or a response with a status code and a body (`none` models a
body whose `.text()` raises a decode error). -/
inductive HttpOutcome where
  | exn
  | resp (status : Nat) (page : Option Page)
deriving DecidableEq, Repr

/-- The network, as a deterministic response assignment: `httpGet` is the
aiohttp Tier-1 transport, `render` the Playwright Tier-2 renderer
(`none` models any launch/navigation error, which the program absorbs). -/
structure Oracle where
  httpGet : String → HttpOutcome
  render : String → Bool → Option Page

/-- `true` exactly on the soft-failure outcomes of a Tier-1 GET. -/
def httpFailure : HttpOutcome → Bool
  | .exn => true
  | .resp s p => s != 200 || p.isNone

/-- One network operation, for fetch-call counting. -/
inductive FetchEvent where
  | get (url : String)
  | render (url : String) (deep : Bool)
deriving DecidableEq, Repr

/-- The URL a network operation targets. -/
def eventUrl : FetchEvent → String
  | .get u => u
  | .render u _ => u

/-- The per-domain result record built by `check_domain`. -/
structure DomainResult where
  line_number : Nat
  domain : String
  emails : String
  target_website : String
deriving DecidableEq, Repr

/-! ## Email extraction and validation -/

/-- `cleanup_email` of `src/scraper.py`, replacement for replacement in
source order. -/
def cleanup_email (email : String) : String :=
  let e := pyUnquote email
  pyReplace (pyReplace (pyReplace (pyReplace (pyReplace (pyReplace (pyReplace
    (pyReplace (pyReplace (pyReplace (pyReplace (pyReplace
      (pyLower e) "[at]" "@") "(at)" "@") " at " "@") " à " "@") "＠" "@")
      "&#64;" "@") "&#46;" ".") " dot " ".") "。" ".") "[dot]" ".")
      "(dot)" ".") " " ""

/-- Characters the modelled validator accepts in the local part. -/
def localChar (c : Char) : Bool :=
  c.isAlphanum || c == '.' || c == '_' || c == '%' || c == '+' || c == '-'

/-- Characters the modelled validator accepts in a domain label. -/
def labelChar (c : Char) : Bool := c.isAlphanum || c == '-'

/-- Split a character list at every occurrence of `sep`. -/
def splitOnChar (sep : Char) (s : List Char) : List (List Char) :=
  splitOnP (fun c => c == sep) s

/-- Modelled from the spec: the external email-syntax Validator (spec 4.2,
the `email_validator` library, called with `check_deliverability=False`) —
an RFC-shaped `local@domain` syntax check and nothing more: exactly one
`@`; a non-empty local part of word/dot/percent/plus/minus characters; a
domain of at least two non-empty labels of alphanumeric/hyphen characters
whose last label is purely alphabetic of length at least 2.  The library's
code is not part of this repository. -/
def validate_email (s : String) : Bool :=
  match splitOnChar '@' s.data with
  | [localPart, domainPart] =>
    let labels := splitOnChar '.' domainPart
    localPart ≠ [] && localPart.all localChar &&
    labels.length ≥ 2 && labels.all (fun l => l ≠ [] && l.all labelChar) &&
    (match labels.getLast? with
     | some tld => tld.length ≥ 2 && tld.all Char.isAlpha
     | none => false)
  | _ => false

/-- The `match[0] or match[1]` expression of `src/scraper.py` lines 67/91:
`EMAIL_PATTERN` has no capture groups, so `findall` returns whole match
strings and `match[0]` is the first character of the match — a
one-character string, always truthy, so the `or` always yields it. -/
def firstCharSel (m : String) : String :=
  match m.data with
  | [] => ""
  | c :: _ => String.mk [c]

/-- Processing of one `mailto:` anchor href (`src/scraper.py` lines 70-74
and 94-98): keep it when `'mailto:'` occurs in its lowercasing, take the
part after the first `:`, cut at `?` and `#`, strip, percent-decode. -/
def mailtoCandidate (href : String) : Option String :=
  if containsSub "mailto:".data (pyLower href).data then
    some (pyUnquote (pyStrip (String.mk
      (((splitOnceTail ':' href.data).takeWhile (fun c => c ≠ '?')).takeWhile
        (fun c => c ≠ '#')))))
  else none

/-- The candidate-extraction block shared by `fetch_emails` and
`fetch_emails_playwright` (`src/scraper.py` lines 66-75 and 90-100):
text-scan candidates are reduced to their first character by
`match[0] or match[1]`, the union is deduplicated as a `set` of the RAW
candidates, and `cleanup_email` is applied afterwards. -/
def extract_candidates (pg : Page) : List String :=
  let emails_text := (findallEmails pg.text).map firstCharSel
  let emails_mailto := pg.mailtoHrefs.filterMap mailtoCandidate
  (pySet (emails_text ++ emails_mailto)).map cleanup_email

/-! ## Fetchers and page discovery -/

/-- `fetch_emails_playwright` (`src/scraper.py` lines 52-75): any
Playwright error is absorbed and yields `[]`; otherwise the rendered
page's candidates.  The first component is the network-operation trace. -/
def fetch_emails_playwright (oracle : Oracle) (url : String) (deep : Bool) :
    List FetchEvent × List String :=
  ([FetchEvent.render url deep],
   match oracle.render url deep with
   | none => []
   | some pg => extract_candidates pg)

/-- `fetch_emails` (`src/scraper.py` lines 78-100): Tier-2 directly in
deep mode; otherwise Tier-1 GET, falling back to Tier 2 on any soft
failure (exception, non-200 status, body decode error). -/
def fetch_emails (oracle : Oracle) (url : String) (deep : Bool) :
    List FetchEvent × List String :=
  if deep then fetch_emails_playwright oracle url true
  else
    match oracle.httpGet url with
    | .resp 200 (some pg) => ([FetchEvent.get url], extract_candidates pg)
    | _ =>
      let p := fetch_emails_playwright oracle url false
      (FetchEvent.get url :: p.1, p.2)

/-- Modelled from the library call `urllib.parse.urljoin`, restricted to
the cases this program exercises (the base is always `scheme://host`):
absolute hrefs pass through, root-relative hrefs attach to the base,
other hrefs resolve against the base. -/
def urljoin (base href : String) : String :=
  if strStarts href "http://" || strStarts href "https://" then href
  else if strStarts href "/" then base ++ href
  else base ++ "/" ++ href

/-- The keyword list of `discover_relevant_pages`. -/
def keywords : List String :=
  ["contact", "about", "team", "support", "impressum", "privacy"]

/-- `discover_relevant_pages` (`src/scraper.py` lines 103-131): on any
exception, non-200 status or decode error it returns `[]`; on success it
collects the hrefs inside `footer`/`aside`/`nav` sections (resolved
against the base) and the hrefs anywhere whose lowercasing contains a
keyword (the LOWERCASED href is resolved, as in the source), deduplicated
as a set and capped at 10. -/
def discover_relevant_pages (oracle : Oracle) (base_url : String) :
    List FetchEvent × List String :=
  ([FetchEvent.get base_url],
   match oracle.httpGet base_url with
   | .resp 200 (some pg) =>
     let structural := pg.structuralHrefs.filterMap (fun href =>
       let h := pyStrip href
       if h ≠ "" then some (urljoin base_url h) else none)
     let keyworded := pg.allHrefs.filterMap (fun href =>
       let h := pyLower (pyStrip href)
       if keywords.any (fun k => containsSub k.data h.data) then
         some (urljoin base_url h)
       else none)
     (pySet (structural ++ keyworded)).take 10
   | _ => [])

/-- The candidate pages `check_domain` actually iterates
(`src/scraper.py` lines 146-148): the discovered links, or the
single-element `[base_url]` when discovery produced nothing. -/
def pagesFor (oracle : Oracle) (base_url : String) : List String :=
  let links := (discover_relevant_pages oracle base_url).2
  if links = [] then [base_url] else links

/-! ## The per-domain processor `check_domain` -/

/-- Result of one sweep over the candidate pages (or of the retry loop):
accumulated trace, the candidates of the first page that produced any,
and that page. -/
structure SweepResult where
  events : List FetchEvent
  found : List String
  page : Option String
deriving Repr

/-- The inner `for page in relevant_pages` loop (`src/scraper.py` lines
153-158): fetch each page in order, stopping at the first page whose
fetch yields a non-empty candidate list. -/
def sweepPages (oracle : Oracle) (deep : Bool) : List String → SweepResult
  | [] => ⟨[], [], none⟩
  | p :: rest =>
    let f := fetch_emails oracle p deep
    if f.2 ≠ [] then ⟨f.1, f.2, some p⟩
    else
      let r := sweepPages oracle deep rest
      ⟨f.1 ++ r.events, r.found, r.page⟩

/-- The `for _ in range(MAX_RETRIES + 1)` loop (`src/scraper.py` lines
150-158): up to `n` sweeps, stopping after the first successful one. -/
def retrySweeps (oracle : Oracle) (deep : Bool) (pages : List String) : Nat → SweepResult
  | 0 => ⟨[], [], none⟩
  | n + 1 =>
    let s := sweepPages oracle deep pages
    if s.found ≠ [] then s
    else
      let r := retrySweeps oracle deep pages n
      ⟨s.events ++ r.events, r.found, r.page⟩

/-- One protocol attempt (`src/scraper.py` lines 145-158): build the base
URL, discover pages, iterate with retries; `emails = list(set(emails +
new_emails))` runs with `emails == []`, so the state after a success is
`pySet` of the new candidates. -/
def tryProtocol (oracle : Oracle) (deep : Bool) (base_url : String) : SweepResult :=
  let ev0 := (discover_relevant_pages oracle base_url).1
  let s := retrySweeps oracle deep (pagesFor oracle base_url) (MAX_RETRIES + 1)
  ⟨ev0 ++ s.events, pySet s.found, s.page⟩

/-- State after the `for protocol in protocols` loop: trace, candidate
emails, producing page, and the last bound `base_url`. -/
structure ProtoResult where
  events : List FetchEvent
  raw : List String
  target : Option String
  lastBase : String
deriving Repr

/-- The protocol loop (`src/scraper.py` lines 142-158): `https` then
`http`, breaking as soon as `emails` is non-empty. -/
def protocolLoop (oracle : Oracle) (domain : String) (deep : Bool) :
    List String → ProtoResult
  | [] => ⟨[], [], none, ""⟩
  | [proto] =>
    let base := proto ++ "://" ++ domain
    let a := tryProtocol oracle deep base
    ⟨a.events, a.found, a.page, base⟩
  | proto :: rest =>
    let base := proto ++ "://" ++ domain
    let a := tryProtocol oracle deep base
    if a.found ≠ [] then ⟨a.events, a.found, a.page, base⟩
    else
      let r := protocolLoop oracle domain deep rest
      ⟨a.events ++ r.events, r.raw, r.target, r.lastBase⟩

/-- Everything `check_domain` computes: the network trace, the raw
candidate state `emails`, the validated list `valid_emails`, the
producing page, and the returned record. -/
structure DomainRun where
  trace : List FetchEvent
  raw : List String
  valid : List String
  target : Option String
  result : DomainResult
deriving Repr

/-- `check_domain` (`src/scraper.py` lines 134-173).  A blank hostname
returns immediately; otherwise the protocol loop runs, the raw candidates
are validated (`set(emails)` filtered by the validator), and the record
is assembled: `emails` is `', '.join(valid_emails)` or `'Not found'`;
`target_website` is `(target_website or base_url) if emails else ''`
(Python `or`: the recorded page unless it is falsy). -/
def check_domain (oracle : Oracle) (domain : String) (line_number : Nat)
    (deep : Bool) : DomainRun :=
  if pyStrip domain = "" then
    ⟨[], [], [], none, ⟨line_number, "", "Not found", ""⟩⟩
  else
    let pr := protocolLoop oracle domain deep ["https", "http"]
    let valid_emails := (pySet pr.raw).filter validate_email
    ⟨pr.events, pr.raw, valid_emails, pr.target,
     ⟨line_number, domain,
      if valid_emails ≠ [] then joinCS valid_emails else "Not found",
      if pr.raw ≠ [] then
        (match pr.target with
         | some p => if p = "" then pr.lastBase else p
         | none => pr.lastBase)
      else ""⟩⟩

/-! ## The orchestrator `main` -/

/-- The input-parsing comprehension (`src/scraper.py` lines 178-180):
`[(idx + 1, line.strip().replace('http://', '').replace('https://', '')
.split()[0]) for idx, line in enumerate(f) if line.strip()]`.
`idx` counts ALL lines (blank ones included); blank lines produce no
task.  `split()[0]` raises `IndexError` when nothing remains after
scheme-stripping, which kills the program before any write — modelled by
`none`. -/
def parseDomains : List String → Nat → Option (List (Nat × String))
  | [], _ => some []
  | line :: rest, idx =>
    if pyStrip line = "" then parseDomains rest (idx + 1)
    else
      match (pySplitWS (pyReplace (pyReplace (pyStrip line) "http://" "") "https://" "")).head? with
      | none => none
      | some tok =>
        (parseDomains rest (idx + 1)).map (fun ts => (idx + 1, String.mk tok) :: ts)

/-- The Pass-1 result of one task (`check_domain(session, domain,
line_no)`, `src/scraper.py` line 196). -/
def pass1Res (oracle : Oracle) (t : Nat × String) : DomainResult :=
  (check_domain oracle t.2 t.1 false).result

/-- The Pass-2 deep re-check of one Pass-1 result (`check_domain(session,
r['domain'], r['line_number'], deep=True)`, `src/scraper.py` lines 211
and 223). -/
def deepRes (oracle : Oracle) (r : DomainResult) : DomainResult :=
  (check_domain oracle r.domain r.line_number true).result

/-- `to_retry = [r for r in results_pass1 if r['emails'] == 'Not found']`
(`src/scraper.py` line 208). -/
def toRetry (rp1 : List DomainResult) : List DomainResult :=
  rp1.filter (fun r => r.emails == "Not found")

/-- The line numbers for which a Tier-2 deep `check_domain` run is
executed after Pass 1, one entry per execution: the Pass-2
`as_completed` loop (`src/scraper.py` lines 211-213, results discarded)
runs one per `to_retry` entry, and the merge loop (line 223) runs one
more per `to_retry` entry. -/
def deepInvocations (rp1 : List DomainResult) : List Nat :=
  (toRetry rp1).map (fun r => r.line_number) ++ (toRetry rp1).map (fun r => r.line_number)

/-- Python `dict` assignment `d[k] = v`: replace in place when the key is
present, else append (insertion order is preserved, as Python
guarantees). -/
def dictUpsert (d : List (Nat × DomainResult)) (k : Nat) (v : DomainResult) :
    List (Nat × DomainResult) :=
  if d.any (fun p => p.1 == k) then
    d.map (fun p => if p.1 == k then (k, v) else p)
  else d ++ [(k, v)]

/-- `final_results = {r['line_number']: r for r in results_pass1}`
(`src/scraper.py` line 220). -/
def dictOfResults (rp1 : List DomainResult) : List (Nat × DomainResult) :=
  rp1.foldl (fun d r => dictUpsert d r.line_number r) []

/-- One iteration of the merge loop (`src/scraper.py` lines 221-225):
re-run the deep check and overwrite the stored record only when the deep
result's `emails` is not `'Not found'`. -/
def mergeStep (oracle : Oracle) (d : List (Nat × DomainResult)) (r : DomainResult) :
    List (Nat × DomainResult) :=
  let dr := deepRes oracle r
  if dr.emails ≠ "Not found" then dictUpsert d dr.line_number dr else d

/-- The `final_results` dict after the merge loop. -/
def finalDict (oracle : Oracle) (rp1 : List DomainResult) : List (Nat × DomainResult) :=
  (toRetry rp1).foldl (mergeStep oracle) (dictOfResults rp1)

/-- `final_results[k]` lookup. -/
def dictFind (d : List (Nat × DomainResult)) (k : Nat) : Option DomainResult :=
  (d.find? (fun p => p.1 == k)).map Prod.snd

/-- `sorted(final_results.values(), key=lambda x: x['line_number'])`
(`src/scraper.py` line 228); Python's `sorted` is a stable
comparison sort. -/
def sortedFinal (oracle : Oracle) (rp1 : List DomainResult) : List DomainResult :=
  List.insertionSort (fun a b => a.line_number ≤ b.line_number)
    ((finalDict oracle rp1).map Prod.snd)

/-- The header row of the output CSV. -/
def csvHeader : List String := ["domain", "emails", "target_website"]

/-- One written CSV row (`writer.writerow([r['domain'], r['emails'],
r['target_website']])`). -/
def rowOf (r : DomainResult) : List String := [r.domain, r.emails, r.target_website]

/-- The final authoritative CSV write (`src/scraper.py` lines 229-233) as
a list of rows, given the Pass-1 result list `rp1` in whatever order the
concurrent tasks completed. -/
def finalRows (oracle : Oracle) (rp1 : List DomainResult) : List (List String) :=
  csvHeader :: (sortedFinal oracle rp1).map rowOf

/-- The replacement rule the merge loop implements for a single Pass-1
record: the stored record is replaced by the whole deep record exactly
when the Pass-1 record was `'Not found'` and the deep record is not. -/
def mergeOf (oracle : Oracle) (r : DomainResult) : DomainResult :=
  if r.emails == "Not found" && (deepRes oracle r).emails != "Not found" then
    deepRes oracle r
  else r

/-! ## Failure model and concrete fixtures -/

/-- Every Tier-1 response is a soft failure (exception, non-200 status or
decode error) and every Tier-2 render fails: the universal quantification
ranges over all combinations of the failure outcomes. -/
def AllFail (oracle : Oracle) : Prop :=
  (∀ u, httpFailure (oracle.httpGet u) = true) ∧ (∀ u b, oracle.render u b = none)

/-- A page whose only email occurrence is one `mailto:` anchor. -/
def pageWithMailto (addr : String) : Page := ⟨"", ["mailto:" ++ addr], [], []⟩

/-- A page whose text contains a canonical address and which has no
anchors at all. -/
def pageTextOnly : Page := ⟨"info@example.com", [], [], []⟩

/-- Fixture: the network where everything fails. -/
def oracleAllFail : Oracle := ⟨fun _ => .exn, fun _ _ => none⟩

/-- Fixture: `https://good.com` serves a page with a `mailto:` anchor;
everything else fails. -/
def oracleDemo : Oracle :=
  ⟨fun u => if u = "https://good.com" then .resp 200 (some (pageWithMailto "info@good.com")) else .exn,
   fun _ _ => none⟩

/-- Fixture: `https://x.com` serves a page whose text contains an address
but has no anchors; everything else fails. -/
def oracleTextDemo : Oracle :=
  ⟨fun u => if u = "https://x.com" then .resp 200 (some pageTextOnly) else .exn,
   fun _ _ => none⟩

/-- Fixture: Tier 1 always fails; the Tier-2 renderer serves
`https://b.com` in deep mode only. -/
def oracleDeepDemo : Oracle :=
  ⟨fun _ => .exn,
   fun u b => if u = "https://b.com" ∧ b = true then some (pageWithMailto "info@b.com") else none⟩

/-- Fixture: `https://good.com` found in Pass 1, `bad.com` never found;
the resulting Pass-1 record list in submission order. -/
def rp1Demo : List DomainResult :=
  [pass1Res oracleDemo (1, "good.com"), pass1Res oracleDemo (2, "bad.com")]

/-- Fixture: a Pass-1 record that found an email. -/
def resFound : DomainResult := ⟨1, "a.com", "x@a.com", "https://a.com"⟩

/-- Fixture: a Pass-1 record that found nothing. -/
def resMissing : DomainResult := ⟨2, "b.com", "Not found", ""⟩

/-- Fixture: a two-record Pass-1 result list. -/
def rp1Pair : List DomainResult := [resFound, resMissing]

/-! ## Basic lemmas about the container model -/

theorem pySetAux_subset {seen l : List String} {x : String}
    (h : x ∈ pySetAux seen l) : x ∈ l := by
  induction l generalizing seen with
  | nil => simp [pySetAux] at h
  | cons a t ih =>
    by_cases ha : a ∈ seen
    · simp only [pySetAux, if_pos ha] at h
      exact List.mem_cons_of_mem _ (ih h)
    · simp only [pySetAux, if_neg ha, List.mem_cons] at h
      rcases h with h | h
      · exact h ▸ List.mem_cons_self _ _
      · exact List.mem_cons_of_mem _ (ih h)

theorem pySet_subset {l : List String} {x : String} (h : x ∈ pySet l) : x ∈ l :=
  pySetAux_subset h

theorem pySet_eq_nil_iff {l : List String} : pySet l = [] ↔ l = [] := by
  cases l with
  | nil => simp [pySet, pySetAux]
  | cons a t => simp [pySet, pySetAux]

/-! ## Soft-failure absorption (claim C9) -/

theorem fetch_emails_allFail {oracle : Oracle} (h : AllFail oracle)
    (u : String) (deep : Bool) : (fetch_emails oracle u deep).2 = [] := by
  cases deep with
  | true => simp [fetch_emails, fetch_emails_playwright, h.2]
  | false =>
    have h1 := h.1 u
    cases hg : oracle.httpGet u with
    | exn => simp [fetch_emails, fetch_emails_playwright, hg, h.2]
    | resp s pg =>
      rw [hg] at h1
      cases pg with
      | none => simp [fetch_emails, fetch_emails_playwright, hg, h.2]
      | some p =>
        have hs : s ≠ 200 := by simpa [httpFailure] using h1
        simp only [fetch_emails, hg, Bool.false_eq_true, if_false]
        split
        · rename_i heq
          injection heq with h200 hpg
          exact absurd h200 hs
        · simp [fetch_emails_playwright, h.2]

theorem sweepPages_allFail {oracle : Oracle} (h : AllFail oracle) (deep : Bool) :
    ∀ ps, (sweepPages oracle deep ps).found = [] ∧ (sweepPages oracle deep ps).page = none
  | [] => ⟨rfl, rfl⟩
  | p :: rest => by
    have hf := fetch_emails_allFail h p deep
    have ih := sweepPages_allFail h deep rest
    simp [sweepPages, hf, ih.1, ih.2]

theorem retrySweeps_allFail {oracle : Oracle} (h : AllFail oracle) (deep : Bool)
    (pages : List String) :
    ∀ n, (retrySweeps oracle deep pages n).found = [] ∧
      (retrySweeps oracle deep pages n).page = none
  | 0 => ⟨rfl, rfl⟩
  | n + 1 => by
    have hs := sweepPages_allFail h deep pages
    have ih := retrySweeps_allFail h deep pages n
    simp [retrySweeps, hs.1, hs.2, ih.1, ih.2]

theorem tryProtocol_allFail {oracle : Oracle} (h : AllFail oracle) (deep : Bool)
    (base : String) :
    (tryProtocol oracle deep base).found = [] ∧ (tryProtocol oracle deep base).page = none := by
  have hr := retrySweeps_allFail h deep (pagesFor oracle base) (MAX_RETRIES + 1)
  simp [tryProtocol, hr.1, hr.2, pySet, pySetAux]

theorem protocolLoop_allFail {oracle : Oracle} (h : AllFail oracle)
    (d : String) (deep : Bool) :
    ∀ ps, (protocolLoop oracle d deep ps).raw = [] ∧
      (protocolLoop oracle d deep ps).target = none
  | [] => ⟨rfl, rfl⟩
  | [p] => by
    have ht := tryProtocol_allFail h deep (p ++ "://" ++ d)
    simp [protocolLoop, ht.1, ht.2]
  | p :: q :: rest => by
    have ht := tryProtocol_allFail h deep (p ++ "://" ++ d)
    have ih := protocolLoop_allFail h d deep (q :: rest)
    simp [protocolLoop, ht.1, ht.2, ih.1, ih.2]

/-- C9: for every domain and every combination of soft fetch outcomes
(timeout, connection error, non-200 status, decode error, render error)
the per-domain processor absorbs the failure locally — the embedding is a
total function, mirroring the fact that every exception path in
`check_domain` and the two fetchers is caught — and the worst possible
outcome for a domain is the `'Not found'` record with an empty
`target_website`. -/
theorem C9_all_failures_absorbed_not_found (oracle : Oracle) (d : String)
    (n : Nat) (deep : Bool) (h : AllFail oracle) :
    (check_domain oracle d n deep).result.emails = "Not found" ∧
    (check_domain oracle d n deep).result.target_website = "" := by
  by_cases hb : pyStrip d = ""
  · simp [check_domain, hb]
  · have hp := protocolLoop_allFail h d deep ["https", "http"]
    simp [check_domain, hb, hp.1, pySet, pySetAux]

/-- Witness for C9 at a concrete always-failing network. -/
theorem C9_all_failures_absorbed_not_found_witness :
    AllFail oracleAllFail ∧
    (check_domain oracleAllFail "nomail.test" 3 false).result.emails = "Not found" ∧
    (check_domain oracleAllFail "nomail.test" 3 false).result.target_website = "" :=
  ⟨⟨fun _ => rfl, fun _ _ => rfl⟩,
   C9_all_failures_absorbed_not_found oracleAllFail "nomail.test" 3 false
     ⟨fun _ => rfl, fun _ _ => rfl⟩⟩

/-! ## Blank hostnames (claim C10) -/

/-- C10: a hostname that strips to the empty string returns the fixed
blank record immediately, with an empty network trace (no fetch, no page
discovery). -/
theorem C10_blank_hostname_immediate (oracle : Oracle) (d : String) (n : Nat)
    (deep : Bool) (h : pyStrip d = "") :
    check_domain oracle d n deep =
      ⟨[], [], [], none, ⟨n, "", "Not found", ""⟩⟩ := by
  simp [check_domain, h]

/-- Witness for C10 on a whitespace-only hostname. -/
theorem C10_blank_hostname_immediate_witness :
    (pyStrip "  " = "") ∧
    check_domain oracleAllFail "  " 7 true =
      ⟨[], [], [], none, ⟨7, "", "Not found", ""⟩⟩ :=
  ⟨by decide, C10_blank_hostname_immediate oracleAllFail "  " 7 true (by decide)⟩

/-! ## The broken obfuscated-candidate extraction (claim C4) -/

/-- C4: the two obfuscated fixtures of the spec yield NO candidate at all
from the extractor (under `re.VERBOSE` the spaced obfuscation
alternatives compile to bare `at`/`dot` literals, so the pattern cannot
match across the spaces; moreover the groupless pattern makes
`match[0] or match[1]` reduce any match to its first character), while
`cleanup_email` itself would normalize both candidates to `foo@bar.com` —
the code's extraction contradicts the normalization machinery it feeds. -/
theorem C4_obfuscated_candidates_not_extracted :
    extract_candidates ⟨"Contact: foo [at] bar [dot] com", [], [], []⟩ = [] ∧
    extract_candidates ⟨"foo (at) bar (dot) com", [], [], []⟩ = [] ∧
    cleanup_email "foo [at] bar [dot] com" = "foo@bar.com" ∧
    cleanup_email "foo (at) bar (dot) com" = "foo@bar.com" := by
  refine ⟨?_, ?_, ?_, ?_⟩ <;> decide

/-! ## Pass 2 runs the deep check twice (claim C1) -/

/-- C1: on the fixture where `good.com` (index 1) is found in Pass 1 and
`bad.com` (index 2) is not, the Pass-2 deep `check_domain` executions are
`[2, 2]`: index 2 is deep-checked TWICE (once in the discarded
`as_completed` loop, once again in the merge loop), not exactly once as
claimed, and the found index 1 is never deep-checked. -/
theorem C1_pass2_deep_check_runs_twice :
    deepInvocations rp1Demo = [2, 2] ∧
    (deepInvocations rp1Demo).count 2 = 2 ∧
    (deepInvocations rp1Demo).count 1 = 0 := by
  refine ⟨?_, ?_, ?_⟩ <;> decide

/-! ## Page discovery on fetch failure (claim C5) -/

/-- Counterexample to C5 as stated: when fetching the base URL fails, the
page discoverer returns the EMPTY list, not the single-element list
containing the base URL (the substitution happens later, in
`check_domain`). -/
theorem C5_discover_failure_returns_empty_not_base :
    (discover_relevant_pages oracleAllFail "https://x.com").2 = [] ∧
    (discover_relevant_pages oracleAllFail "https://x.com").2 ≠ ["https://x.com"] := by
  have h0 : (discover_relevant_pages oracleAllFail "https://x.com").2 = [] := by decide
  exact ⟨h0, by rw [h0]; decide⟩

/-! ## Short-circuit lemmas (claims C6 and C7) -/

theorem check_domain_eq (oracle : Oracle) (d : String) (n : Nat) (deep : Bool)
    (hb : ¬pyStrip d = "") :
    check_domain oracle d n deep =
      ⟨(protocolLoop oracle d deep ["https", "http"]).events,
       (protocolLoop oracle d deep ["https", "http"]).raw,
       (pySet (protocolLoop oracle d deep ["https", "http"]).raw).filter validate_email,
       (protocolLoop oracle d deep ["https", "http"]).target,
       ⟨n, d,
        if (pySet (protocolLoop oracle d deep ["https", "http"]).raw).filter validate_email ≠ [] then
          joinCS ((pySet (protocolLoop oracle d deep ["https", "http"]).raw).filter validate_email)
        else "Not found",
        if (protocolLoop oracle d deep ["https", "http"]).raw ≠ [] then
          (match (protocolLoop oracle d deep ["https", "http"]).target with
           | some p => if p = "" then (protocolLoop oracle d deep ["https", "http"]).lastBase else p
           | none => (protocolLoop oracle d deep ["https", "http"]).lastBase)
        else ""⟩⟩ := by
  simp only [check_domain, if_neg hb]

theorem fetch_emails_trace_last (oracle : Oracle) (u : String) (deep : Bool) :
    ∃ e, (fetch_emails oracle u deep).1.getLast? = some e ∧ eventUrl e = u := by
  cases deep with
  | true => exact ⟨.render u true, rfl, rfl⟩
  | false =>
    rw [show fetch_emails oracle u false =
        (match oracle.httpGet u with
         | .resp 200 (some pg) => ([FetchEvent.get u], extract_candidates pg)
         | _ =>
           let p := fetch_emails_playwright oracle u false
           (FetchEvent.get u :: p.1, p.2)) from rfl]
    split
    · exact ⟨.get u, rfl, rfl⟩
    · exact ⟨.render u false, rfl, rfl⟩

theorem sweepPages_success (oracle : Oracle) (deep : Bool) :
    ∀ ps, (sweepPages oracle deep ps).found ≠ [] →
      ∃ p e, (sweepPages oracle deep ps).page = some p ∧ p ∈ ps ∧
        (sweepPages oracle deep ps).events.getLast? = some e ∧ eventUrl e = p
  | [], h => absurd rfl h
  | p :: rest, h => by
    by_cases hf : (fetch_emails oracle p deep).2 = []
    · have hrec : sweepPages oracle deep (p :: rest) =
          ⟨(fetch_emails oracle p deep).1 ++ (sweepPages oracle deep rest).events,
           (sweepPages oracle deep rest).found, (sweepPages oracle deep rest).page⟩ := by
        simp [sweepPages, hf]
      rw [hrec] at h ⊢
      obtain ⟨q, e, hpage, hmem, hlast, hurl⟩ := sweepPages_success oracle deep rest h
      have hne : (sweepPages oracle deep rest).events ≠ [] := by
        intro h0; rw [h0] at hlast; exact Option.noConfusion hlast
      exact ⟨q, e, hpage, List.mem_cons_of_mem _ hmem,
        by rw [List.getLast?_append_of_ne_nil _ hne]; exact hlast, hurl⟩
    · have hrec : sweepPages oracle deep (p :: rest) =
          ⟨(fetch_emails oracle p deep).1, (fetch_emails oracle p deep).2, some p⟩ := by
        simp [sweepPages, hf]
      rw [hrec]
      obtain ⟨e, hlast, hurl⟩ := fetch_emails_trace_last oracle p deep
      exact ⟨p, e, rfl, List.mem_cons_self _ _, hlast, hurl⟩

theorem retrySweeps_success (oracle : Oracle) (deep : Bool) (pages : List String) :
    ∀ n, (retrySweeps oracle deep pages n).found ≠ [] →
      ∃ p e, (retrySweeps oracle deep pages n).page = some p ∧ p ∈ pages ∧
        (retrySweeps oracle deep pages n).events.getLast? = some e ∧ eventUrl e = p
  | 0, h => absurd rfl h
  | n + 1, h => by
    by_cases hs : (sweepPages oracle deep pages).found = []
    · have hrec : retrySweeps oracle deep pages (n + 1) =
          ⟨(sweepPages oracle deep pages).events ++ (retrySweeps oracle deep pages n).events,
           (retrySweeps oracle deep pages n).found, (retrySweeps oracle deep pages n).page⟩ := by
        simp [retrySweeps, hs]
      rw [hrec] at h ⊢
      obtain ⟨q, e, hpage, hmem, hlast, hurl⟩ := retrySweeps_success oracle deep pages n h
      have hne : (retrySweeps oracle deep pages n).events ≠ [] := by
        intro h0; rw [h0] at hlast; exact Option.noConfusion hlast
      exact ⟨q, e, hpage, hmem,
        by rw [List.getLast?_append_of_ne_nil _ hne]; exact hlast, hurl⟩
    · have hrec : retrySweeps oracle deep pages (n + 1) = sweepPages oracle deep pages := by
        simp [retrySweeps, hs]
      rw [hrec] at h ⊢
      exact sweepPages_success oracle deep pages h

theorem tryProtocol_success (oracle : Oracle) (deep : Bool) (base : String)
    (h : (tryProtocol oracle deep base).found ≠ []) :
    ∃ p e, (tryProtocol oracle deep base).page = some p ∧ p ∈ pagesFor oracle base ∧
      (tryProtocol oracle deep base).events.getLast? = some e ∧ eventUrl e = p := by
  have hs : (retrySweeps oracle deep (pagesFor oracle base) (MAX_RETRIES + 1)).found ≠ [] := by
    intro h0
    apply h
    show pySet (retrySweeps oracle deep (pagesFor oracle base) (MAX_RETRIES + 1)).found = []
    rw [h0]
    rfl
  obtain ⟨p, e, hpage, hmem, hlast, hurl⟩ :=
    retrySweeps_success oracle deep (pagesFor oracle base) (MAX_RETRIES + 1) hs
  have hne : (retrySweeps oracle deep (pagesFor oracle base) (MAX_RETRIES + 1)).events ≠ [] := by
    intro h0; rw [h0] at hlast; exact Option.noConfusion hlast
  exact ⟨p, e, hpage, hmem,
    by show ((discover_relevant_pages oracle base).1 ++ _).getLast? = some e
       rw [List.getLast?_append_of_ne_nil _ hne]; exact hlast, hurl⟩

theorem protocolLoop_success (oracle : Oracle) (d : String) (deep : Bool) :
    ∀ ps, (protocolLoop oracle d deep ps).raw ≠ [] →
      ∃ proto p e, proto ∈ ps ∧ (protocolLoop oracle d deep ps).target = some p ∧
        p ∈ pagesFor oracle (proto ++ "://" ++ d) ∧
        (protocolLoop oracle d deep ps).events.getLast? = some e ∧ eventUrl e = p
  | [], h => absurd rfl h
  | [q], h => by
    have hrec : protocolLoop oracle d deep [q] =
        ⟨(tryProtocol oracle deep (q ++ "://" ++ d)).events,
         (tryProtocol oracle deep (q ++ "://" ++ d)).found,
         (tryProtocol oracle deep (q ++ "://" ++ d)).page, q ++ "://" ++ d⟩ := rfl
    rw [hrec] at h ⊢
    obtain ⟨p, e, hpage, hmem, hlast, hurl⟩ := tryProtocol_success oracle deep _ h
    exact ⟨q, p, e, List.mem_cons_self _ _, hpage, hmem, hlast, hurl⟩
  | q :: q2 :: rest, h => by
    by_cases ha : (tryProtocol oracle deep (q ++ "://" ++ d)).found = []
    · have hrec : protocolLoop oracle d deep (q :: q2 :: rest) =
          ⟨(tryProtocol oracle deep (q ++ "://" ++ d)).events ++
             (protocolLoop oracle d deep (q2 :: rest)).events,
           (protocolLoop oracle d deep (q2 :: rest)).raw,
           (protocolLoop oracle d deep (q2 :: rest)).target,
           (protocolLoop oracle d deep (q2 :: rest)).lastBase⟩ := by
        simp [protocolLoop, ha]
      rw [hrec] at h ⊢
      obtain ⟨proto, p, e, hproto, hpage, hmem, hlast, hurl⟩ :=
        protocolLoop_success oracle d deep (q2 :: rest) h
      have hne : (protocolLoop oracle d deep (q2 :: rest)).events ≠ [] := by
        intro h0; rw [h0] at hlast; exact Option.noConfusion hlast
      exact ⟨proto, p, e, List.mem_cons_of_mem _ hproto, hpage, hmem,
        by rw [List.getLast?_append_of_ne_nil _ hne]; exact hlast, hurl⟩
    · have hrec : protocolLoop oracle d deep (q :: q2 :: rest) =
          ⟨(tryProtocol oracle deep (q ++ "://" ++ d)).events,
           (tryProtocol oracle deep (q ++ "://" ++ d)).found,
           (tryProtocol oracle deep (q ++ "://" ++ d)).page, q ++ "://" ++ d⟩ := by
        simp [protocolLoop, ha]
      rw [hrec] at h ⊢
      obtain ⟨p, e, hpage, hmem, hlast, hurl⟩ := tryProtocol_success oracle deep _ h
      exact ⟨q, p, e, List.mem_cons_self _ _, hpage, hmem, hlast, hurl⟩

/-! ## Non-empty page URLs -/

theorem str_ne_empty_iff {s : String} : s ≠ "" ↔ s.data ≠ [] := by
  constructor
  · intro h h0
    exact h (String.ext h0)
  · intro h h0
    rw [h0] at h
    exact h rfl

theorem append_ne_empty_left {s t : String} (h : s ≠ "") : s ++ t ≠ "" := by
  rw [str_ne_empty_iff] at h ⊢
  rw [String.data_append]
  intro h0
  exact h (List.append_eq_nil.mp h0).1

theorem urljoin_ne_empty {base href : String} (hb : base ≠ "") (hh : href ≠ "") :
    urljoin base href ≠ "" := by
  unfold urljoin
  split
  · exact hh
  · split
    · exact append_ne_empty_left hb
    · exact append_ne_empty_left (append_ne_empty_left hb)

theorem keyworded_href_ne_empty {h : String}
    (hk : keywords.any (fun k => containsSub k.data h.data) = true) : h ≠ "" := by
  intro h0
  rw [h0] at hk
  exact absurd hk (by decide)

theorem discover_mem_ne_empty {oracle : Oracle} {base x : String}
    (hb : base ≠ "") (hx : x ∈ (discover_relevant_pages oracle base).2) : x ≠ "" := by
  dsimp only [discover_relevant_pages] at hx
  split at hx
  · have hx2 := pySet_subset (List.take_subset _ _ hx)
    rcases List.mem_append.mp hx2 with hx3 | hx3
    · obtain ⟨href, _, heq⟩ := List.mem_filterMap.mp hx3
      by_cases hh : pyStrip href = ""
      · rw [if_neg (by simp [hh])] at heq
        exact Option.noConfusion heq
      · rw [if_pos hh] at heq
        rw [← Option.some_inj.mp heq]
        exact urljoin_ne_empty hb hh
    · obtain ⟨href, _, heq⟩ := List.mem_filterMap.mp hx3
      by_cases hk : keywords.any
          (fun k => containsSub k.data (pyLower (pyStrip href)).data) = true
      · rw [if_pos hk] at heq
        rw [← Option.some_inj.mp heq]
        exact urljoin_ne_empty hb (keyworded_href_ne_empty hk)
      · rw [if_neg hk] at heq
        exact Option.noConfusion heq
  · exact absurd hx (List.not_mem_nil x)

theorem pagesFor_mem_ne_empty {oracle : Oracle} {base p : String}
    (hb : base ≠ "") (hp : p ∈ pagesFor oracle base) : p ≠ "" := by
  unfold pagesFor at hp
  dsimp only at hp
  by_cases hl : (discover_relevant_pages oracle base).2 = []
  · rw [if_pos hl] at hp
    rw [List.mem_singleton.mp hp]
    exact hb
  · rw [if_neg hl] at hp
    exact discover_mem_ne_empty hb hp

theorem protoBase_ne_empty {proto d : String} (hproto : proto ∈ ["https", "http"]) :
    proto ++ "://" ++ d ≠ "" := by
  have h2 : proto = "https" ∨ proto = "http" := by simpa using hproto
  rcases h2 with h | h
  · subst h
    exact append_ne_empty_left (append_ne_empty_left (by decide))
  · subst h
    exact append_ne_empty_left (append_ne_empty_left (by decide))

/-! ## The candidate/validated state and the output fields -/

theorem valid_sub_raw {oracle : Oracle} {d : String} {n : Nat} {deep : Bool}
    (h : (check_domain oracle d n deep).valid ≠ []) :
    (check_domain oracle d n deep).raw ≠ [] := by
  by_cases hb : pyStrip d = ""
  · exact absurd (by simp [check_domain, hb]) h
  · rw [check_domain_eq oracle d n deep hb] at h ⊢
    dsimp only at h ⊢
    intro h0
    apply h
    rw [h0]
    rfl

/-- C6: the instant the run's candidate set becomes non-empty — in
particular whenever a validated email is produced, since a non-'Not
found' result requires one — the network trace ENDS at the fetch of the
producing page: no page, protocol or retry fetch follows it, and that
page's URL is exactly the recorded `target_website` (the `sourcePage` of
the spec). -/
theorem C6_short_circuit_on_success (oracle : Oracle) (d : String) (n : Nat)
    (deep : Bool)
    (h : (check_domain oracle d n deep).result.emails ≠ "Not found") :
    ∃ e, (check_domain oracle d n deep).trace.getLast? = some e ∧
      eventUrl e = (check_domain oracle d n deep).result.target_website := by
  by_cases hb : pyStrip d = ""
  · exact absurd (by simp [check_domain, hb]) h
  · have hvalid : (check_domain oracle d n deep).valid ≠ [] := by
      intro h0
      apply h
      rw [check_domain_eq oracle d n deep hb] at h0 ⊢
      dsimp only at h0 ⊢
      rw [if_neg (fun hne => hne h0)]
    have hraw := valid_sub_raw hvalid
    rw [check_domain_eq oracle d n deep hb] at hraw ⊢
    dsimp only at hraw ⊢
    obtain ⟨proto, p, e, hproto, htarget, hmem, hlast, hurl⟩ :=
      protocolLoop_success oracle d deep ["https", "http"] hraw
    have hpne : p ≠ "" := pagesFor_mem_ne_empty (protoBase_ne_empty hproto) hmem
    refine ⟨e, hlast, ?_⟩
    rw [hurl, if_pos hraw, htarget]
    simp [hpne]

/-- Witness for C6: a domain found via a `mailto:` anchor on its home
page; the producing fetch is the last network operation and its URL is
the recorded `target_website`. -/
theorem C6_short_circuit_on_success_witness :
    (check_domain oracleDemo "good.com" 1 false).result.emails ≠ "Not found" ∧
    ∃ e, (check_domain oracleDemo "good.com" 1 false).trace.getLast? = some e ∧
      eventUrl e = (check_domain oracleDemo "good.com" 1 false).result.target_website :=
  ⟨by decide, C6_short_circuit_on_success oracleDemo "good.com" 1 false (by decide)⟩

/-! ## Amended discovery behaviour (claim C5) -/

theorem discover_of_failure (oracle : Oracle) (u : String)
    (h : httpFailure (oracle.httpGet u) = true) :
    (discover_relevant_pages oracle u).2 = [] := by
  dsimp only [discover_relevant_pages]
  split
  · rename_i pg heq
    rw [heq] at h
    simp [httpFailure] at h
  · rfl

theorem discover_length_le (oracle : Oracle) (u : String) :
    (discover_relevant_pages oracle u).2.length ≤ 10 := by
  dsimp only [discover_relevant_pages]
  split
  · rw [List.length_take]
    exact min_le_left _ _
  · simp

/-- C5 as amended: when the Tier-1 fetch of the base URL soft-fails the
discoverer returns the EMPTY list and the domain processor substitutes
the single-element `[base_url]`; the candidate list actually iterated
always has at most 10 entries (the fixed cap of the source); it is not
guaranteed to contain the base URL on success. -/
theorem C5_amended_discovery_fallback_and_cap (oracle : Oracle) (base_url : String) :
    (httpFailure (oracle.httpGet base_url) = true →
      (discover_relevant_pages oracle base_url).2 = [] ∧
      pagesFor oracle base_url = [base_url]) ∧
    (pagesFor oracle base_url).length ≤ 10 := by
  constructor
  · intro h
    have hd := discover_of_failure oracle base_url h
    refine ⟨hd, ?_⟩
    unfold pagesFor
    dsimp only
    rw [if_pos hd]
  · unfold pagesFor
    dsimp only
    by_cases hl : (discover_relevant_pages oracle base_url).2 = []
    · rw [if_pos hl]
      simp
    · rw [if_neg hl]
      exact discover_length_le oracle base_url

/-- Witness for C5 (amended) at a concrete failing network. -/
theorem C5_amended_discovery_fallback_and_cap_witness :
    httpFailure (oracleAllFail.httpGet "https://x.com") = true ∧
    pagesFor oracleAllFail "https://x.com" = ["https://x.com"] ∧
    (pagesFor oracleAllFail "https://x.com").length ≤ 10 :=
  ⟨by decide,
   ((C5_amended_discovery_fallback_and_cap oracleAllFail "https://x.com").1 (by decide)).2,
   (C5_amended_discovery_fallback_and_cap oracleAllFail "https://x.com").2⟩

/-! ## Characters of validated addresses -/

theorem splitOnP_ne_nil (p : Char → Bool) : ∀ s, splitOnP p s ≠ []
  | [] => by simp [splitOnP]
  | c :: rest => by
    dsimp only [splitOnP]
    by_cases hp : p c
    · simp [hp]
    · rw [if_neg hp]
      rcases h : splitOnP p rest with _ | ⟨rh, rt⟩
      · simp
      · simp

theorem splitOnP_mem_parts (p : Char → Bool) :
    ∀ (s : List Char) (c : Char), c ∈ s →
      p c = true ∨ ∃ part ∈ splitOnP p s, c ∈ part := by
  intro s
  induction s with
  | nil => intro c hc; exact absurd hc (List.not_mem_nil c)
  | cons a t ih =>
    intro c hc
    by_cases hp : p a
    · rcases List.mem_cons.mp hc with rfl | hc2
      · exact Or.inl hp
      · rcases ih c hc2 with h | ⟨part, hpart, hcp⟩
        · exact Or.inl h
        · right
          refine ⟨part, ?_, hcp⟩
          simp only [splitOnP, if_pos hp]
          exact List.mem_cons_of_mem _ hpart
    · rcases h : splitOnP p t with _ | ⟨rh, rt⟩
      · exact absurd h (splitOnP_ne_nil p t)
      · have hsplit : splitOnP p (a :: t) = (a :: rh) :: rt := by
          dsimp only [splitOnP]
          rw [if_neg hp, h]
        rcases List.mem_cons.mp hc with rfl | hc2
        · exact Or.inr ⟨c :: rh, by rw [hsplit]; exact List.mem_cons_self _ _,
            List.mem_cons_self _ _⟩
        · rcases ih c hc2 with h2 | ⟨part, hpart, hcp⟩
          · exact Or.inl h2
          · rw [h] at hpart
            rcases List.mem_cons.mp hpart with rfl | hpart2
            · exact Or.inr ⟨a :: part, by rw [hsplit]; exact List.mem_cons_self _ _,
                List.mem_cons_of_mem _ hcp⟩
            · exact Or.inr ⟨part, by rw [hsplit]; exact List.mem_cons_of_mem _ hpart2, hcp⟩

theorem validate_email_chars {x : String} (h : validate_email x = true) :
    ∀ c ∈ x.data, c = '@' ∨ localChar c = true ∨ c = '.' ∨ labelChar c = true := by
  intro c hc
  unfold validate_email at h
  split at h
  · rename_i localPart domainPart heq
    have hconj := h
    simp only [Bool.and_eq_true] at hconj
    obtain ⟨⟨⟨⟨_, hlocal⟩, _⟩, hlabels⟩, _⟩ := hconj
    rcases splitOnP_mem_parts (fun c => c == '@') x.data c hc with h1 | ⟨part, hpart, hcp⟩
    · exact Or.inl (by simpa using h1)
    · rw [show splitOnP (fun c => c == '@') x.data = splitOnChar '@' x.data from rfl,
        heq] at hpart
      rcases List.mem_cons.mp hpart with rfl | hpart2
      · exact Or.inr (Or.inl (List.all_eq_true.mp hlocal c hcp))
      · have hdom : part = domainPart := by
          rcases List.mem_cons.mp hpart2 with h3 | h3
          · exact h3
          · exact absurd h3 (List.not_mem_nil _)
        subst hdom
        rcases splitOnP_mem_parts (fun c => c == '.') part c hcp with h2 | ⟨lab, hlab, hclab⟩
        · exact Or.inr (Or.inr (Or.inl (by simpa using h2)))
        · have hl2 := List.all_eq_true.mp hlabels lab
            (by rw [show splitOnP (fun c => c == '.') part = splitOnChar '.' part from rfl]
                  at hlab
                exact hlab)
          simp only [Bool.and_eq_true] at hl2
          exact Or.inr (Or.inr (Or.inr (List.all_eq_true.mp hl2.2 c hclab)))
  · exact absurd h (by simp)

theorem validated_no_space {x : String} (h : validate_email x = true) :
    ' ' ∉ x.data := by
  intro hc
  rcases validate_email_chars h ' ' hc with h1 | h1 | h1 | h1 <;> revert h1 <;> decide

theorem validated_no_comma {x : String} (h : validate_email x = true) :
    ',' ∉ x.data := by
  intro hc
  rcases validate_email_chars h ',' hc with h1 | h1 | h1 | h1 <;> revert h1 <;> decide

theorem joinCS_ne_notfound {l : List String} (hne : l ≠ [])
    (hall : ∀ x ∈ l, validate_email x = true) : joinCS l ≠ "Not found" := by
  cases l with
  | nil => exact absurd rfl hne
  | cons e rest =>
    cases rest with
    | nil =>
      intro h0
      have hje : joinCS [e] = e := by
        show String.mk (sepJoin [e.data]) = e
        rfl
      rw [hje] at h0
      have hsp := validated_no_space (hall e (List.mem_cons_self _ _))
      rw [h0] at hsp
      exact hsp (by decide)
    | cons e2 rest2 =>
      intro h0
      have hcomma : ',' ∈ (joinCS (e :: e2 :: rest2)).data := by
        show ',' ∈ e.data ++ [',', ' '] ++ sepJoin (e2.data :: rest2.map String.data)
        simp
      rw [h0] at hcomma
      exact absurd hcomma (by decide)

/-! ## The output-field contract of `check_domain` (claim C7) -/

/-- C7 as amended: the `emails` field is the comma-and-space join of the
validated deduplicated candidates exactly when at least one candidate
validates (in set-iteration order — the source does NOT sort it), and
`'Not found'` otherwise; when `emails` is not `'Not found'` the
`target_website` is the producing page and hence non-empty.  The converse
direction of the original claim fails: `emails = 'Not found'` does NOT
force `target_website = \"\"` (see the counterexample), because the
short-circuit records the page of the first RAW candidate even when no
candidate validates. -/
theorem C7_amended_output_fields (oracle : Oracle) (d : String) (n : Nat)
    (deep : Bool) :
    ((check_domain oracle d n deep).result.emails = "Not found" ↔
      (check_domain oracle d n deep).valid = []) ∧
    ((check_domain oracle d n deep).result.emails ≠ "Not found" →
      (check_domain oracle d n deep).result.emails =
        joinCS (check_domain oracle d n deep).valid ∧
      (check_domain oracle d n deep).result.target_website ≠ "") := by
  by_cases hb : pyStrip d = ""
  · refine ⟨?_, ?_⟩
    · constructor
      · intro _
        simp [check_domain, hb]
      · intro _
        simp [check_domain, hb]
    · intro h
      exact absurd (by simp [check_domain, hb]) h
  · rw [check_domain_eq oracle d n deep hb]
    dsimp only
    constructor
    · by_cases hv : (pySet (protocolLoop oracle d deep ["https", "http"]).raw).filter
          validate_email = []
      · rw [if_neg (fun hne => hne hv)]
        simp [hv]
      · rw [if_pos hv]
        exact iff_of_false
          (joinCS_ne_notfound hv (fun x hx => (List.mem_filter.mp hx).2)) hv
    · intro h
      have hv : (pySet (protocolLoop oracle d deep ["https", "http"]).raw).filter
          validate_email ≠ [] := by
        intro h0
        exact h (by rw [if_neg (fun hne => hne h0)])
      have hraw : (protocolLoop oracle d deep ["https", "http"]).raw ≠ [] := by
        intro h0
        apply hv
        rw [h0]
        rfl
      refine ⟨by rw [if_pos hv], ?_⟩
      obtain ⟨proto, p, e, hproto, htarget, hmem, _, _⟩ :=
        protocolLoop_success oracle d deep ["https", "http"] hraw
      have hpne : p ≠ "" := pagesFor_mem_ne_empty (protoBase_ne_empty hproto) hmem
      rw [if_pos hraw, htarget]
      simp [hpne]

/-- Witness for C7 (amended): a found domain whose output fields satisfy
the contract. -/
theorem C7_amended_output_fields_witness :
    (check_domain oracleDemo "good.com" 1 false).result.emails ≠ "Not found" ∧
    (check_domain oracleDemo "good.com" 1 false).result.emails =
      joinCS (check_domain oracleDemo "good.com" 1 false).valid ∧
    (check_domain oracleDemo "good.com" 1 false).result.target_website ≠ "" :=
  ⟨by decide, (C7_amended_output_fields oracleDemo "good.com" 1 false).2 (by decide)⟩

/-! ## 'Not found' with a recorded target page (claim C7) -/

/-- Counterexample to C7 as stated: a page whose text yields only an
invalid candidate (the first-character artifact `"i"`) produces the
output row `emails = 'Not found'` together with the NON-empty
`target_website = "https://x.com"`. -/
theorem C7_not_found_with_nonempty_target :
    (check_domain oracleTextDemo "x.com" 1 false).result.emails = "Not found" ∧
    (check_domain oracleTextDemo "x.com" 1 false).result.target_website = "https://x.com" ∧
    ("https://x.com" : String) ≠ "" := by
  refine ⟨?_, ?_, ?_⟩ <;> decide

/-! ## The emails field is 'Not found' exactly when nothing validated -/

theorem check_domain_emails_nf_iff (oracle : Oracle) (d : String) (n : Nat)
    (deep : Bool) :
    (check_domain oracle d n deep).result.emails = "Not found" ↔
      (check_domain oracle d n deep).valid = [] := by
  by_cases hb : pyStrip d = ""
  · constructor
    · intro _
      simp [check_domain, hb]
    · intro _
      simp [check_domain, hb]
  · rw [check_domain_eq oracle d n deep hb]
    dsimp only
    by_cases hv : (pySet (protocolLoop oracle d deep ["https", "http"]).raw).filter
        validate_email = []
    · rw [if_neg (fun hne => hne hv)]
      simp [hv]
    · rw [if_pos hv]
      exact iff_of_false
        (joinCS_ne_notfound hv (fun x hx => (List.mem_filter.mp hx).2)) hv

/-! ## Line numbers through the processors -/

theorem check_domain_ln (oracle : Oracle) (d : String) (n : Nat) (deep : Bool) :
    (check_domain oracle d n deep).result.line_number = n := by
  by_cases hb : pyStrip d = ""
  · simp [check_domain, hb]
  · rw [check_domain_eq oracle d n deep hb]

theorem pass1Res_ln (oracle : Oracle) (t : Nat × String) :
    (pass1Res oracle t).line_number = t.1 :=
  check_domain_ln oracle t.2 t.1 false

theorem deepRes_ln (oracle : Oracle) (r : DomainResult) :
    (deepRes oracle r).line_number = r.line_number :=
  check_domain_ln oracle r.domain r.line_number true

theorem mergeOf_ln (oracle : Oracle) (r : DomainResult) :
    (mergeOf oracle r).line_number = r.line_number := by
  unfold mergeOf
  split
  · exact deepRes_ln oracle r
  · rfl

theorem ln_inj_of_pairwise {rp1 : List DomainResult}
    (h : rp1.Pairwise (fun a b => a.line_number ≠ b.line_number))
    {x y : DomainResult} (hx : x ∈ rp1) (hy : y ∈ rp1)
    (hxy : x.line_number = y.line_number) : x = y := by
  by_cases heq : x = y
  · exact heq
  · have hsym : Symmetric (fun (a b : DomainResult) =>
        a.line_number ≠ b.line_number) :=
      fun a b hab h2 => hab h2.symm
    exact absurd hxy (List.Pairwise.forall hsym h hx hy heq)

/-! ## The final-results dict (claims C2 and C3) -/

theorem foldl_dictUpsert_eq :
    ∀ (rs : List DomainResult) (acc : List (Nat × DomainResult)),
      (∀ r ∈ rs, ∀ q ∈ acc, q.1 ≠ r.line_number) →
      rs.Pairwise (fun a b => a.line_number ≠ b.line_number) →
      rs.foldl (fun d r => dictUpsert d r.line_number r) acc =
        acc ++ rs.map (fun r => (r.line_number, r)) := by
  intro rs
  induction rs with
  | nil =>
    intro acc _ _
    simp
  | cons r rest ih =>
    intro acc hacc hpw
    have hany : (acc.any (fun q => q.1 == r.line_number)) = false := by
      rw [List.any_eq_false]
      intro q hq hbeq
      exact hacc r (List.mem_cons_self _ _) q hq (by simpa using hbeq)
    have hstep : dictUpsert acc r.line_number r = acc ++ [(r.line_number, r)] := by
      simp [dictUpsert, hany]
    have hsub : ∀ r2 ∈ rest, ∀ q ∈ acc ++ [(r.line_number, r)],
        q.1 ≠ r2.line_number := by
      intro r2 hr2 q hq
      rcases List.mem_append.mp hq with hq1 | hq1
      · exact hacc r2 (List.mem_cons_of_mem _ hr2) q hq1
      · rw [List.mem_singleton.mp hq1]
        exact (List.pairwise_cons.mp hpw).1 r2 hr2
    rw [List.foldl_cons, hstep, ih _ hsub (List.Pairwise.of_cons hpw)]
    simp

theorem dictOfResults_eq {rp1 : List DomainResult}
    (h : rp1.Pairwise (fun a b => a.line_number ≠ b.line_number)) :
    dictOfResults rp1 = rp1.map (fun r => (r.line_number, r)) := by
  have h0 := foldl_dictUpsert_eq rp1 []
    (fun r _ q hq => absurd hq (List.not_mem_nil q)) h
  simpa [dictOfResults] using h0

theorem mergeFold_eq (oracle : Oracle) {rp1 : List DomainResult}
    (hpw : rp1.Pairwise (fun a b => a.line_number ≠ b.line_number)) :
    ∀ (ts : List DomainResult) (f : DomainResult → DomainResult),
      (∀ t ∈ ts, t ∈ rp1) →
      ts.foldl (mergeStep oracle) (rp1.map (fun x => (x.line_number, f x))) =
        rp1.map (fun x => (x.line_number,
          if x ∈ ts ∧ (deepRes oracle x).emails ≠ "Not found" then deepRes oracle x
          else f x)) := by
  intro ts
  induction ts with
  | nil =>
    intro f _
    simp
  | cons t ts2 ih =>
    intro f hsub
    have htmem : t ∈ rp1 := hsub t (List.mem_cons_self _ _)
    rw [List.foldl_cons]
    by_cases hOK : (deepRes oracle t).emails ≠ "Not found"
    · have hany : ((rp1.map (fun x => (x.line_number, f x))).any
          (fun q => q.1 == t.line_number)) = true := by
        rw [List.any_eq_true]
        exact ⟨(t.line_number, f t), List.mem_map_of_mem _ htmem, by simp⟩
      have hstep : mergeStep oracle (rp1.map (fun x => (x.line_number, f x))) t =
          rp1.map (fun x => (x.line_number,
            if x.line_number = t.line_number then deepRes oracle t else f x)) := by
        simp only [mergeStep, if_pos hOK, deepRes_ln, dictUpsert, hany, if_true,
          List.map_map]
        apply List.map_congr_left
        intro x _
        by_cases hx : x.line_number = t.line_number
        · simp [hx]
        · simp [hx]
      rw [hstep, ih (fun x => if x.line_number = t.line_number then deepRes oracle t
          else f x) (fun t2 ht2 => hsub t2 (List.mem_cons_of_mem _ ht2))]
      apply List.map_congr_left
      intro x hx
      refine congrArg (fun v => (x.line_number, v)) ?_
      by_cases h1 : x ∈ ts2 ∧ (deepRes oracle x).emails ≠ "Not found"
      · rw [if_pos h1, if_pos ⟨List.mem_cons_of_mem _ h1.1, h1.2⟩]
      · rw [if_neg h1]
        by_cases h2 : x.line_number = t.line_number
        · have hxt : x = t := ln_inj_of_pairwise hpw hx htmem h2
          subst hxt
          rw [if_pos rfl, if_pos ⟨List.mem_cons_self _ _, hOK⟩]
        · have hcond : ¬(x ∈ t :: ts2 ∧ (deepRes oracle x).emails ≠ "Not found") := by
            intro hc
            rcases List.mem_cons.mp hc.1 with he | hmem2
            · exact h2 (by rw [he])
            · exact h1 ⟨hmem2, hc.2⟩
          rw [if_neg h2, if_neg hcond]
    · have hstep : mergeStep oracle (rp1.map (fun x => (x.line_number, f x))) t =
          rp1.map (fun x => (x.line_number, f x)) := by
        simp only [mergeStep, if_neg hOK]
      rw [hstep, ih f (fun t2 ht2 => hsub t2 (List.mem_cons_of_mem _ ht2))]
      apply List.map_congr_left
      intro x hx
      refine congrArg (fun v => (x.line_number, v)) ?_
      by_cases h1 : x ∈ ts2 ∧ (deepRes oracle x).emails ≠ "Not found"
      · rw [if_pos h1, if_pos ⟨List.mem_cons_of_mem _ h1.1, h1.2⟩]
      · have hcond : ¬(x ∈ t :: ts2 ∧ (deepRes oracle x).emails ≠ "Not found") := by
          intro hc
          rcases List.mem_cons.mp hc.1 with he | hmem2
          · exact hOK (he ▸ hc.2)
          · exact h1 ⟨hmem2, hc.2⟩
        rw [if_neg h1, if_neg hcond]

theorem finalDict_eq (oracle : Oracle) {rp1 : List DomainResult}
    (hpw : rp1.Pairwise (fun a b => a.line_number ≠ b.line_number)) :
    finalDict oracle rp1 = rp1.map (fun x => (x.line_number, mergeOf oracle x)) := by
  unfold finalDict
  rw [dictOfResults_eq hpw]
  have h0 : rp1.map (fun r => (r.line_number, r)) =
      rp1.map (fun x => (x.line_number, id x)) := rfl
  rw [h0, mergeFold_eq oracle hpw (toRetry rp1) id
    (fun t ht => (List.mem_filter.mp ht).1)]
  apply List.map_congr_left
  intro x hx
  refine congrArg (fun v => (x.line_number, v)) ?_
  by_cases hm : x.emails = "Not found"
  · by_cases hd : (deepRes oracle x).emails ≠ "Not found"
    · rw [if_pos ⟨List.mem_filter.mpr ⟨hx, by simp [toRetry, hm]⟩, hd⟩]
      unfold mergeOf
      rw [if_pos (by simp [hm]; exact hd)]
    · have hcond : ¬(x ∈ toRetry rp1 ∧ (deepRes oracle x).emails ≠ "Not found") :=
        fun hc => hd hc.2
      rw [if_neg hcond]
      unfold mergeOf
      rw [if_neg (by simp [hm]; exact not_not.mp hd)]
      rfl
  · have hcond : ¬(x ∈ toRetry rp1 ∧ (deepRes oracle x).emails ≠ "Not found") := by
      intro hc
      have := (List.mem_filter.mp hc.1).2
      exact hm (by simpa [toRetry] using this)
    rw [if_neg hcond]
    unfold mergeOf
    rw [if_neg (by simp [hm])]
    rfl

theorem dictFind_map (g : DomainResult → DomainResult) :
    ∀ (rp1 : List DomainResult),
      rp1.Pairwise (fun a b => a.line_number ≠ b.line_number) →
      ∀ {x : DomainResult}, x ∈ rp1 →
        dictFind (rp1.map (fun r => (r.line_number, g r))) x.line_number =
          some (g x) := by
  intro rp1
  induction rp1 with
  | nil =>
    intro _ x hx
    exact absurd hx (List.not_mem_nil x)
  | cons y rest ih =>
    intro hpw x hx
    by_cases hy : y.line_number = x.line_number
    · have hxy : y = x :=
        ln_inj_of_pairwise hpw (List.mem_cons_self _ _) hx hy
      unfold dictFind
      rw [List.map_cons, List.find?_cons_of_pos _ (by simpa using hy)]
      rw [hxy]
      rfl
    · have hx2 : x ∈ rest := by
        rcases List.mem_cons.mp hx with he | hm
        · exact absurd (by rw [he]) hy
        · exact hm
      unfold dictFind
      rw [List.map_cons, List.find?_cons_of_neg _ (by simpa using hy)]
      exact ih (List.Pairwise.of_cons hpw) hx2

/-- C2: for every collected Pass-1 record (the records carry pairwise
distinct stable indices), the stored final result for its index is EITHER
the Pass-1 record itself OR the whole Pass-2 deep record, the latter
exactly when the deep run validated at least one email; and a record
whose Pass-1 `emails` is not `'Not found'` is never overwritten, so an
index never regresses from found to not-found. -/
theorem C2_pass2_overwrite_whole_record_monotone (oracle : Oracle)
    (rp1 : List DomainResult)
    (hpw : rp1.Pairwise (fun a b => a.line_number ≠ b.line_number))
    (r : DomainResult) (hr : r ∈ rp1) :
    (dictFind (finalDict oracle rp1) r.line_number = some r ∨
      (dictFind (finalDict oracle rp1) r.line_number = some (deepRes oracle r) ∧
       (check_domain oracle r.domain r.line_number true).valid ≠ [])) ∧
    (r.emails ≠ "Not found" →
      dictFind (finalDict oracle rp1) r.line_number = some r) := by
  have hfind : dictFind (finalDict oracle rp1) r.line_number =
      some (mergeOf oracle r) := by
    rw [finalDict_eq oracle hpw]
    exact dictFind_map (mergeOf oracle) rp1 hpw hr
  constructor
  · by_cases hc : (r.emails == "Not found" &&
        (deepRes oracle r).emails != "Not found") = true
    · right
      have hd : (deepRes oracle r).emails ≠ "Not found" := by
        simp only [Bool.and_eq_true, bne_iff_ne] at hc
        exact hc.2
      refine ⟨?_, ?_⟩
      · rw [hfind]
        unfold mergeOf
        rw [if_pos hc]
      · intro hv
        exact hd ((check_domain_emails_nf_iff oracle r.domain r.line_number true).mpr hv)
    · left
      rw [hfind]
      unfold mergeOf
      rw [if_neg (by simpa using hc)]
  · intro hne
    rw [hfind]
    unfold mergeOf
    rw [if_neg (by simp [hne])]

/-- Witness for C2 on the two-record fixture: the found record (index 1)
survives untouched; the not-found record (index 2) is replaced by the
whole deep record. -/
theorem C2_pass2_overwrite_whole_record_monotone_witness :
    rp1Pair.Pairwise (fun a b => a.line_number ≠ b.line_number) ∧
    resFound ∈ rp1Pair ∧ resFound.emails ≠ "Not found" ∧
    dictFind (finalDict oracleDeepDemo rp1Pair) resFound.line_number = some resFound ∧
    (dictFind (finalDict oracleDeepDemo rp1Pair) resMissing.line_number = some resMissing ∨
      (dictFind (finalDict oracleDeepDemo rp1Pair) resMissing.line_number =
        some (deepRes oracleDeepDemo resMissing) ∧
       (check_domain oracleDeepDemo resMissing.domain resMissing.line_number true).valid ≠ [])) :=
  ⟨by decide, by decide, by decide,
   (C2_pass2_overwrite_whole_record_monotone oracleDeepDemo rp1Pair (by decide)
     resFound (by decide)).2 (by decide),
   (C2_pass2_overwrite_whole_record_monotone oracleDeepDemo rp1Pair (by decide)
     resMissing (by decide)).1⟩

/-! ## Input parsing (claim C3) -/

theorem parseDomains_fst_bound :
    ∀ (lines : List String) (i : Nat) (ts : List (Nat × String)),
      parseDomains lines i = some ts →
      (∀ t ∈ ts, i < t.1) ∧ ts.Pairwise (fun a b => a.1 < b.1) := by
  intro lines
  induction lines with
  | nil =>
    intro i ts h
    have h2 : ts = [] := by simpa [parseDomains] using h.symm
    subst h2
    exact ⟨fun t ht => absurd ht (List.not_mem_nil t), List.Pairwise.nil⟩
  | cons line rest ih =>
    intro i ts h
    by_cases hb : pyStrip line = ""
    · rw [show parseDomains (line :: rest) i = parseDomains rest (i + 1) by
        simp [parseDomains, hb]] at h
      obtain ⟨hbound, hpw⟩ := ih (i + 1) ts h
      exact ⟨fun t ht => Nat.lt_trans (Nat.lt_succ_self i) (hbound t ht), hpw⟩
    · rw [show parseDomains (line :: rest) i =
          (match (pySplitWS (pyReplace (pyReplace (pyStrip line) "http://" "")
              "https://" "")).head? with
           | none => none
           | some tok =>
             (parseDomains rest (i + 1)).map (fun ts => (i + 1, String.mk tok) :: ts)) by
        simp [parseDomains, hb]] at h
      cases htok : (pySplitWS (pyReplace (pyReplace (pyStrip line) "http://" "")
          "https://" "")).head? with
      | none =>
        rw [htok] at h
        exact Option.noConfusion h
      | some tok =>
        rw [htok] at h
        cases hrec : parseDomains rest (i + 1) with
        | none =>
          rw [hrec] at h
          exact Option.noConfusion h
        | some ts2 =>
          rw [hrec] at h
          have hts : ts = (i + 1, String.mk tok) :: ts2 := by
            simpa using h.symm
          subst hts
          obtain ⟨hbound, hpw⟩ := ih (i + 1) ts2 hrec
          constructor
          · intro t ht
            rcases List.mem_cons.mp ht with he | ht2
            · rw [he]
              exact Nat.lt_succ_self i
            · exact Nat.lt_trans (Nat.lt_succ_self i) (hbound t ht2)
          · exact List.pairwise_cons.mpr ⟨fun t ht2 => hbound t ht2, hpw⟩

theorem parseDomains_length :
    ∀ (lines : List String) (i : Nat) (ts : List (Nat × String)),
      parseDomains lines i = some ts →
      ts.length = lines.countP (fun l => !(pyStrip l == "")) := by
  intro lines
  induction lines with
  | nil =>
    intro i ts h
    have h2 : ts = [] := by simpa [parseDomains] using h.symm
    subst h2
    rfl
  | cons line rest ih =>
    intro i ts h
    by_cases hb : pyStrip line = ""
    · rw [show parseDomains (line :: rest) i = parseDomains rest (i + 1) by
        simp [parseDomains, hb]] at h
      rw [ih (i + 1) ts h, List.countP_cons_of_neg _ _ (by simp [hb])]
    · rw [show parseDomains (line :: rest) i =
          (match (pySplitWS (pyReplace (pyReplace (pyStrip line) "http://" "")
              "https://" "")).head? with
           | none => none
           | some tok =>
             (parseDomains rest (i + 1)).map (fun ts => (i + 1, String.mk tok) :: ts)) by
        simp [parseDomains, hb]] at h
      cases htok : (pySplitWS (pyReplace (pyReplace (pyStrip line) "http://" "")
          "https://" "")).head? with
      | none =>
        rw [htok] at h
        exact Option.noConfusion h
      | some tok =>
        rw [htok] at h
        cases hrec : parseDomains rest (i + 1) with
        | none =>
          rw [hrec] at h
          exact Option.noConfusion h
        | some ts2 =>
          rw [hrec] at h
          have hts : ts = (i + 1, String.mk tok) :: ts2 := by
            simpa using h.symm
          subst hts
          rw [List.countP_cons_of_pos _ _ (by simp [hb]), List.length_cons,
            ih (i + 1) ts2 hrec]

/-! ## The final authoritative write (claim C3) -/

/-- The final write characterized: for every parsed input and every
completion order (an arbitrary permutation `rp1` of the per-task Pass-1
results), the final rows are the header followed by one row per task in
input order. -/
theorem finalRows_char (lines : List String) (oracle : Oracle)
    (tasks : List (Nat × String)) (rp1 : List DomainResult)
    (hparse : parseDomains lines 0 = some tasks)
    (hperm : rp1.Perm (tasks.map (pass1Res oracle))) :
    finalRows oracle rp1 =
      csvHeader :: tasks.map (fun t => rowOf (mergeOf oracle (pass1Res oracle t))) := by
  obtain ⟨hbound, hpwt⟩ := parseDomains_fst_bound lines 0 tasks hparse
  have hpw1 : (tasks.map (pass1Res oracle)).Pairwise
      (fun a b => a.line_number ≠ b.line_number) := by
    rw [List.pairwise_map]
    refine hpwt.imp ?_
    intro a b hab
    rw [pass1Res_ln, pass1Res_ln]
    exact Nat.ne_of_lt hab
  have hpwr : rp1.Pairwise (fun a b => a.line_number ≠ b.line_number) :=
    (hperm.pairwise_iff (fun h2 h3 => h2 h3.symm)).mpr hpw1
  have hvals : (finalDict oracle rp1).map Prod.snd = rp1.map (mergeOf oracle) := by
    rw [finalDict_eq oracle hpwr, List.map_map]
    rfl
  have hperm2 : ((finalDict oracle rp1).map Prod.snd).Perm
      (tasks.map (fun t => mergeOf oracle (pass1Res oracle t))) := by
    rw [hvals]
    have h2 := hperm.map (mergeOf oracle)
    rw [List.map_map] at h2
    exact h2
  have hperm3 : (sortedFinal oracle rp1).Perm
      (tasks.map (fun t => mergeOf oracle (pass1Res oracle t))) :=
    (List.perm_insertionSort _ _).trans hperm2
  have hcs : (tasks.map (fun t => mergeOf oracle (pass1Res oracle t))).Pairwise
      (fun a b => a.line_number < b.line_number) := by
    rw [List.pairwise_map]
    refine hpwt.imp ?_
    intro a b hab
    have ha : (mergeOf oracle (pass1Res oracle a)).line_number = a.1 := by
      rw [mergeOf_ln, pass1Res_ln]
    have hb2 : (mergeOf oracle (pass1Res oracle b)).line_number = b.1 := by
      rw [mergeOf_ln, pass1Res_ln]
    rw [ha, hb2]
    exact hab
  haveI : IsTotal DomainResult (fun a b => a.line_number ≤ b.line_number) :=
    ⟨fun a b => Nat.le_total _ _⟩
  haveI : IsTrans DomainResult (fun a b => a.line_number ≤ b.line_number) :=
    ⟨fun _ _ _ hab hbc => Nat.le_trans hab hbc⟩
  haveI : IsAntisymm DomainResult (fun a b => a.line_number < b.line_number) :=
    ⟨fun _ _ h1 h2 => absurd h2 (Nat.lt_asymm h1)⟩
  have hs1 : (sortedFinal oracle rp1).Pairwise
      (fun a b => a.line_number ≤ b.line_number) :=
    List.sorted_insertionSort _ _
  have hs0 : (sortedFinal oracle rp1).Pairwise
      (fun a b => a.line_number ≠ b.line_number) :=
    (hperm3.pairwise_iff (fun h2 h3 => h2 h3.symm)).mpr
      (hcs.imp (fun {a b} h2 => Nat.ne_of_lt h2))
  have hs2 : (sortedFinal oracle rp1).Pairwise
      (fun a b => a.line_number < b.line_number) :=
    (hs1.and hs0).imp (fun {a b} h2 => Nat.lt_of_le_of_ne h2.1 h2.2)
  have hfinal : sortedFinal oracle rp1 =
      tasks.map (fun t => mergeOf oracle (pass1Res oracle t)) :=
    List.eq_of_perm_of_sorted hperm3 hs2 hcs
  unfold finalRows
  rw [hfinal, List.map_map]
  rfl

/-- C3: for every parsed input and every completion order of the
concurrent Pass-1 tasks (modelled as an arbitrary permutation `rp1` of
the per-task results), the final authoritative CSV write is the header
row followed by EXACTLY one row per non-empty input line, in input-line
order: row `k` is the (possibly Pass-2-improved) result of task `k`.  The
row count equals the number of non-empty lines and the task indices are
strictly increasing, so sorting by the stable index reproduces the
original input order regardless of completion order. -/
theorem C3_final_write_ordered_by_index (lines : List String) (oracle : Oracle)
    (tasks : List (Nat × String)) (rp1 : List DomainResult)
    (hparse : parseDomains lines 0 = some tasks)
    (_hne : tasks ≠ [])
    (hperm : rp1.Perm (tasks.map (pass1Res oracle))) :
    finalRows oracle rp1 =
      csvHeader :: tasks.map (fun t => rowOf (mergeOf oracle (pass1Res oracle t))) ∧
    tasks.length = lines.countP (fun l => !(pyStrip l == "")) ∧
    (tasks.map Prod.fst).Pairwise (· < ·) :=
  ⟨finalRows_char lines oracle tasks rp1 hparse hperm,
   parseDomains_length lines 0 tasks hparse,
   List.pairwise_map.mpr (parseDomains_fst_bound lines 0 tasks hparse).2⟩

/-- Witness for C3 on the three-line fixture (one blank line; the blank
line produces no row; the found and not-found rows appear in input
order). -/
theorem C3_final_write_ordered_by_index_witness :
    parseDomains ["good.com", "", "nomail.test"] 0 =
      some [(1, "good.com"), (3, "nomail.test")] ∧
    finalRows oracleDemo
        ([(1, "good.com"), (3, "nomail.test")].map (pass1Res oracleDemo)) =
      csvHeader :: [(1, "good.com"), (3, "nomail.test")].map
        (fun t => rowOf (mergeOf oracleDemo (pass1Res oracleDemo t))) :=
  ⟨by decide,
   (C3_final_write_ordered_by_index ["good.com", "", "nomail.test"] oracleDemo
     [(1, "good.com"), (3, "nomail.test")]
     ([(1, "good.com"), (3, "nomail.test")].map (pass1Res oracleDemo))
     (by decide) (by decide) (List.Perm.refl _)).1⟩

/-- Completion-order independence of the final write: any two Pass-1
collection orders give byte-for-byte the same final rows.  (This is the
scheduling-determinism fragment of the idempotence property; the set-
iteration-order sensitivity of the unsorted emails join is below the
embedding, see RESULTS.) -/
theorem finalRows_completion_order_independent (lines : List String)
    (oracle : Oracle) (tasks : List (Nat × String))
    (rp1 rp2 : List DomainResult)
    (hparse : parseDomains lines 0 = some tasks)
    (h1 : rp1.Perm (tasks.map (pass1Res oracle)))
    (h2 : rp2.Perm (tasks.map (pass1Res oracle))) :
    finalRows oracle rp1 = finalRows oracle rp2 := by
  rw [finalRows_char lines oracle tasks rp1 hparse h1,
    finalRows_char lines oracle tasks rp2 hparse h2]

end EmailScraper
